import Mathlib

/-!
Verification of the minecraft-translator repository against its
natural-language specification.

The repository has two halves:
* the translation pipeline (format handlers, placeholder masker, glossary
  store, batch translator) — its implementation files are not present under
  `src/`, so those components are modelled from the specification text
  (each such definition is marked `Modelled from the spec:`);
* the community web backend (Next.js API routes under `src/web` and the
  unnamed route files) — those are embedded directly from the TypeScript
  source.

Strings are modelled as `List Char` in the pipeline half (where byte-level
round trips matter) and as `String` in the web half.
-/

namespace MCTrans

/-! ### Decimal digit utilities

Shared by the placeholder masker (token numbering `T0`, `T1`, …) and by the
web model (JavaScript `parseInt`/`parseFloat` of the upload form's numeric
fields). All recursions are structural (fuel-indexed) so that concrete
witnesses evaluate inside the kernel. -/

/-- The decimal digit character for `d % 10`. -/
def digitChar : Nat → Char
  | 0 => '0'
  | 1 => '1'
  | 2 => '2'
  | 3 => '3'
  | 4 => '4'
  | 5 => '5'
  | 6 => '6'
  | 7 => '7'
  | 8 => '8'
  | 9 => '9'
  | _ => '?'

/-- Numeric value of a digit character. -/
def digitVal (c : Char) : Nat := c.toNat - 48

/-- Fuel-indexed decimal rendering; the fuel only needs to exceed the
number of decimal digits, `n + 1` always suffices. -/
def numToDigitsGo : Nat → Nat → List Char
  | 0, _ => []
  | fuel + 1, n =>
    if n < 10 then [digitChar n]
    else numToDigitsGo fuel (n / 10) ++ [digitChar (n % 10)]

/-- Decimal rendering of a natural number, most significant digit first. -/
def numToDigits (n : Nat) : List Char := numToDigitsGo (n + 1) n

/-- Decimal parsing (value of a digit string). -/
def digitsToNum (ds : List Char) : Nat := ds.foldl (fun a c => a * 10 + digitVal c) 0

/-- Split a character list at the first occurrence of `sep`: returns the
part strictly before it and the part strictly after it, or `none` when
`sep` does not occur. -/
def splitFirst (sep : Char) : List Char → Option (List Char × List Char)
  | [] => none
  | c :: rest =>
    if c = sep then some ([], rest)
    else (splitFirst sep rest).map (fun p => (c :: p.1, p.2))

/-! ### Placeholder Masker (spec §4.2)

Modelled from the spec: the masker implementation is not under `src/`.
`mask` scans left to right with a precedence-ordered pattern set (printf
specifiers `%s`/`%d`/`%1$s`, brace placeholders `{...}`, colour codes
`§x`/`&x`, escape sequences such as `\n`), replacing each match with a
numbered token `⟦T0⟧`, `⟦T1⟧`, … and recording the original substring by
token index; `unmask` restores the protected substrings. -/

/-- Modelled from the spec: length of the protected span at the head of
`s`, if one of the masker's patterns matches there. -/
def matchProtected (s : List Char) : Option Nat :=
  match s with
  | '%' :: 's' :: _ => some 2
  | '%' :: 'd' :: _ => some 2
  | '%' :: rest =>
    let ds := rest.takeWhile Char.isDigit
    if ds.isEmpty then none
    else
      match rest.dropWhile Char.isDigit with
      | '$' :: 's' :: _ => some (1 + ds.length + 2)
      | '$' :: 'd' :: _ => some (1 + ds.length + 2)
      | _ => none
  | '{' :: rest =>
    match splitFirst '}' rest with
    | some (inner, _) => some (inner.length + 2)
    | none => none
  | '§' :: _ :: _ => some 2
  | '&' :: _ :: _ => some 2
  | '\\' :: _ :: _ => some 2
  | _ => none

/-- Modelled from the spec: the token alphabets. Alphabet `0` is the
spec's standard alphabet (`⟦T0⟧`, `⟦T1⟧`, …); per the failure policy,
pathological input is handled by moving to a distinct alphabet whose
opener is a longer run of `⟦` — alphabet `a` writes match number `n` as
`a + 1` copies of `⟦`, then `T`, the decimal digits of `n` and `⟧`. -/
def mkToken (a n : Nat) : List Char :=
  List.replicate (a + 1) '⟦' ++ 'T' :: (numToDigits n ++ ['⟧'])

/-- Modelled from the spec: the masking scan over alphabet `a`. Each step
consumes at least one character, so fuel equal to the input length
suffices; the counter `n` numbers the matches in order of appearance.
Returns the masked text and the token-map entries (token index ↦ original
protected substring). -/
def maskGo (a : Nat) : Nat → Nat → List Char → List Char × List (Nat × List Char)
  | 0, _, _ => ([], [])
  | fuel + 1, n, s =>
    match matchProtected s with
    | some k =>
      let r := maskGo a fuel (n + 1) (s.drop k)
      (mkToken a n ++ r.1, (n, s.take k) :: r.2)
    | none =>
      match s with
      | [] => ([], [])
      | c :: rest =>
        let r := maskGo a fuel n rest
        (c :: r.1, r.2)

/-- Modelled from the spec: `mask(sourceText) -> (maskedText, tokenMap)`,
first match numbered `T0`. The token map records the chosen alphabet and
the entries. Per the spec's failure policy the alphabet is chosen unused
for this string: with `a` the number of `⟦` in the input, no token of
alphabet `a` (which opens with a run of `a + 1` copies of `⟦`) can occur
verbatim in the input, so masking never silently collides; input without
`⟦` gets the standard alphabet `0`. -/
def mask (s : List Char) : List Char × (Nat × List (Nat × List Char)) :=
  let a := s.count '⟦'
  let r := maskGo a s.length 0 s
  (r.1, (a, r.2))

/-- Modelled from the spec: the unmasking scan over alphabet `a`; on a
token of the alphabet (`a + 1` copies of `⟦`, then `T`, digits, `⟧`) it
emits the token map's entry for that index, otherwise it copies the
character. Each step consumes at least one character of the masked
text. -/
def unmaskGo (a : Nat) : Nat → List (Nat × List Char) → List Char → List Char
  | 0, _, s => s
  | fuel + 1, tm, s =>
    match s with
    | [] => []
    | c :: rest =>
      if (c :: rest).take (a + 2) = List.replicate (a + 1) '⟦' ++ ['T'] then
        match ((c :: rest).drop (a + 2)).dropWhile Char.isDigit with
        | '⟧' :: rest2 =>
          ((tm.lookup (digitsToNum (((c :: rest).drop (a + 2)).takeWhile Char.isDigit))).getD
              []) ++ unmaskGo a fuel tm rest2
        | _ => c :: unmaskGo a fuel tm rest
      else c :: unmaskGo a fuel tm rest

/-- Modelled from the spec: `unmask(maskedText, tokenMap) -> text`; the
token map carries the alphabet chosen when the string was masked. -/
def unmask (tm : Nat × List (Nat × List Char)) (s : List Char) : List Char :=
  unmaskGo tm.1 s.length tm.2 s

/-! ### Translation units (spec §3) -/

/-- Modelled from the spec: the `status` field of a translation unit. -/
inductive UStatus
  | pending
  | translated
  | failed
  | skipped
deriving DecidableEq, Repr

/-- Modelled from the spec: one translatable span (`TranslationUnit`),
with the stable id abstracted to its occurrence index. -/
structure TUnit where
  id : Nat
  sourceText : List Char
  translatedText : Option (List Char)
  status : UStatus
deriving DecidableEq, Repr

/-! ### Format Handlers (spec §4.1, §9)

Modelled from the spec: the per-format handler implementations are not
under `src/`. Following §9, the handlers form a small closed set of tagged
variants behind one extract/apply interface. Each handler segments a file
into alternating literal and translatable spans; `extract` yields the
translatable spans as ordered units and `apply` re-serializes the file
with each translatable span replaced by the corresponding unit's
`translatedText` (falling back to `sourceText`). -/

/-- A file segment: structural text carried through untouched, or a
translatable span. -/
inductive Seg
  | lit (cs : List Char)
  | tr (cs : List Char)
deriving DecidableEq, Repr

/-- Serialization of one segment. -/
def renderSeg : Seg → List Char
  | .lit cs => cs
  | .tr cs => cs

/-- Serialization of a segment list (the original document bytes). -/
def renderSegs (segs : List Seg) : List Char := (segs.map renderSeg).flatten

/-- Modelled from the spec: the closed set of supported file grammars
whose handlers are modelled here — a flat key-value language file and a
script grammar whose translatable spans are double-quoted strings. -/
inductive FileGrammar
  | langFile
  | script
deriving DecidableEq, Repr

/-- Split a file into lines at `'\n'` (the final line has no terminator). -/
def splitLines : List Char → List (List Char)
  | [] => [[]]
  | c :: rest =>
    if c = '\n' then [] :: splitLines rest
    else
      match splitLines rest with
      | l :: ls => (c :: l) :: ls
      | [] => [[c]]

/-- Join lines with `'\n'` (inverse of `splitLines`). -/
def joinLines : List (List Char) → List Char
  | [] => []
  | [l] => l
  | l :: ls => l ++ '\n' :: joinLines ls

/-- Segments of one `key=value` line: the key and the `=` are structural,
the value is translatable; a line without `=` is carried through. -/
def segLine (cs : List Char) : List Seg :=
  match splitFirst '=' cs with
  | some (k, v) => [.lit (k ++ ['=']), .tr v]
  | none => [.lit cs]

/-- Segments of a language file: per-line segments joined by literal
newline segments. -/
def segLangLines : List (List Char) → List Seg
  | [] => []
  | [l] => segLine l
  | l :: ls => segLine l ++ (Seg.lit ['\n'] :: segLangLines ls)

/-- Segments of a script file: the contents of each double-quoted string
are translatable, everything else (including the quotes) is structural.
An unterminated quote is carried through as structural text. The scan
consumes at least one character per step, so fuel equal to the input
length suffices; exhausted fuel carries the remainder through. -/
def segScriptGo : Nat → List Char → List Seg
  | 0, s => if s.isEmpty then [] else [.lit s]
  | fuel + 1, s =>
    match s with
    | [] => []
    | c :: rest =>
      if c = '"' then
        match splitFirst '"' rest with
        | some (inner, after) =>
          .lit ['"'] :: .tr inner :: .lit ['"'] :: segScriptGo fuel after
        | none => [.lit (c :: rest)]
      else .lit [c] :: segScriptGo fuel rest

/-- Modelled from the spec: the segmentation each handler variant performs
on a file of its grammar. -/
def segment : FileGrammar → List Char → List Seg
  | .langFile, s => segLangLines (splitLines s)
  | .script, s => segScriptGo s.length s

/-- The ordered units of the translatable segments, ids numbered from `n`. -/
def extractSegs (n : Nat) : List Seg → List TUnit
  | [] => []
  | .lit _ :: rest => extractSegs n rest
  | .tr cs :: rest => ⟨n, cs, none, .pending⟩ :: extractSegs (n + 1) rest

/-- Modelled from the spec: `handler.extract(file)` — the ordered list of
translation units of the file. -/
def handlerExtract (g : FileGrammar) (file : List Char) : List TUnit :=
  extractSegs 0 (segment g file)

/-- Re-serialize segments, substituting each translatable span by the next
unit's `translatedText` (falling back to its `sourceText`, and to the
original span when units are missing). -/
def applySegs : List Seg → List TUnit → List Char
  | [], _ => []
  | .lit cs :: rest, us => cs ++ applySegs rest us
  | .tr cs :: rest, [] => cs ++ applySegs rest []
  | .tr _ :: rest, u :: us => (u.translatedText.getD u.sourceText) ++ applySegs rest us

/-- Modelled from the spec: `handler.apply(file, units)` — reconstruct the
file bytes with the units' translated text substituted in document
order. -/
def handlerApply (g : FileGrammar) (file : List Char) (units : List TUnit) : List Char :=
  applySegs (segment g file) units

/-- The no-op translation: every unit's `translatedText` set equal to its
`sourceText`. -/
def fillIdentity (us : List TUnit) : List TUnit :=
  us.map (fun u => { u with translatedText := some u.sourceText, status := .translated })

/-! ### Batch Translator (spec §4.4)

Modelled from the spec: the batch translator implementation is not under
`src/`. The LLM capability is an abstract function keyed by unit id that
either returns a translated string or fails. Response validation rejects
an empty string for a non-empty input. A failed or invalid unit is
re-queued (the batch is split down to the offending units) up to
`maxRetries`; a unit still unresolved after exhausting its retries becomes
`status = failed` and keeps `sourceText` as a fallback. -/

/-- Modelled from the spec: response validation — an empty output for a
non-empty input is rejected. -/
def validOutput (u : TUnit) (t : List Char) : Bool :=
  !(t.isEmpty && !u.sourceText.isEmpty)

/-- Modelled from the spec: resolve one unit, with `fuel` remaining
attempts; exhausted attempts mark the unit `failed` with the source text
as fallback. -/
def resolveUnit (cap : Nat → Option (List Char)) : Nat → TUnit → TUnit
  | 0, u => { u with status := .failed, translatedText := some u.sourceText }
  | fuel + 1, u =>
    match cap u.id with
    | some t =>
      if validOutput u t then { u with status := .translated, translatedText := some t }
      else resolveUnit cap fuel u
    | none => resolveUnit cap fuel u

/-- Modelled from the spec: run a batch through the capability with
`maxRetries` retries per unresolved unit. -/
def runBatch (cap : Nat → Option (List Char)) (maxRetries : Nat) (units : List TUnit) :
    List TUnit :=
  units.map (resolveUnit cap (maxRetries + 1))

/-! ### Batch builder (spec §3, `Batch`)

Modelled from the spec: the batch builder implementation is not under
`src/`. Units are grouped greedily in document order; a batch never
exceeds `maxUnits` units nor `maxChars` characters, and a unit that can
fit no legal batch (larger than `maxChars` on its own, or `maxUnits = 0`)
is left out (`skipped`). -/

/-- Modelled from the spec: batch size bounds. -/
structure BatchConfig where
  maxUnits : Nat
  maxChars : Nat
deriving DecidableEq, Repr

/-- Character count of one unit (its source text length). -/
def unitChars (u : TUnit) : Nat := u.sourceText.length

/-- Character count of a batch. -/
def batchChars (b : List TUnit) : Nat := (b.map unitChars).sum

/-- Whether a unit can form a legal singleton batch under `cfg`. -/
def fitsSingleton (cfg : BatchConfig) (u : TUnit) : Bool :=
  1 ≤ cfg.maxUnits && unitChars u ≤ cfg.maxChars

/-- One step of the greedy builder: state is (finished batches, current
open batch); an unplaceable unit is skipped, a unit that overflows the
open batch closes it and opens a new one. -/
def stepBatch (cfg : BatchConfig) (st : List (List TUnit) × List TUnit) (u : TUnit) :
    List (List TUnit) × List TUnit :=
  if fitsSingleton cfg u then
    if st.2.length + 1 ≤ cfg.maxUnits && batchChars st.2 + unitChars u ≤ cfg.maxChars then
      (st.1, st.2 ++ [u])
    else (st.1 ++ [st.2], [u])
  else st

/-- Modelled from the spec: group units into ordered, size-bounded
batches. -/
def buildBatches (cfg : BatchConfig) (units : List TUnit) : List (List TUnit) :=
  let st := units.foldl (stepBatch cfg) ([], [])
  if st.2.isEmpty then st.1 else st.1 ++ [st.2]

/-! ### Glossary Store (spec §3, §4.3)

Modelled from the spec: the glossary store implementation is not under
`src/`. A glossary maps a canonical target term to its entry; the merged
glossary is the pack glossary layered over the vanilla glossary, an
entry-level override (on key collision the pack entry wins entirely, no
field-level merge). -/

/-- Modelled from the spec: the fields of one glossary entry. -/
structure GlossaryEntry where
  aliases : List String
  category : Option String
  notes : Option String
deriving DecidableEq, Repr

/-- A glossary: association list from canonical target term to entry. -/
abbrev Glossary : Type := List (String × GlossaryEntry)

/-- Lookup of a canonical key in a glossary. -/
def glossaryFind (g : Glossary) (k : String) : Option GlossaryEntry :=
  List.lookup k g

/-- Modelled from the spec: merge the two glossary layers; on key
collision the pack entry wins entirely. -/
def mergeGlossary (vanilla pack : Glossary) : Glossary :=
  pack ++ vanilla.filter (fun e => (glossaryFind pack e.1).isNone)

/-! ### Web backend model

Embedded from the TypeScript API routes under `src/web/src/app/api` and
the unnamed route files. `formData.get(...)` yields a string or null;
JavaScript truthiness on such a value is falsity exactly on null and the
empty string. -/

/-- JavaScript falsiness of a nullable form string (`null` and `""`). -/
def jsFalsy : Option String → Bool
  | none => true
  | some s => s == ""

/-- `a || b` on a nullable form string (the default applies when the
value is falsy). -/
def jsOr (a : Option String) (b : String) : String :=
  match a with
  | some s => if s == "" then b else s
  | none => b

/-- Unsigned decimal-digit-prefix value of `parseInt(s, 10)`; `none`
models `NaN`. -/
def intDigitsVal (cs : List Char) : Option Int :=
  if (cs.takeWhile Char.isDigit).isEmpty then none
  else some ((digitsToNum (cs.takeWhile Char.isDigit) : Int))

/-- `parseInt(s, 10)`: optional sign followed by a decimal-digit prefix;
`none` models `NaN`. -/
def jsParseInt (s : String) : Option Int :=
  match s.toList with
  | [] => none
  | c :: rest =>
    if c = '-' then (intDigitsVal rest).map Neg.neg
    else intDigitsVal (c :: rest)

/-- Unsigned decimal-literal value of `parseFloat(s)` (digits with an
optional fractional part); `none` models `NaN`. -/
def floatDigitsVal (cs : List Char) : Option ℚ :=
  if (cs.takeWhile Char.isDigit).isEmpty then none
  else
    match cs.dropWhile Char.isDigit with
    | '.' :: fr =>
      some ((digitsToNum (cs.takeWhile Char.isDigit) : ℚ) +
        (digitsToNum (fr.takeWhile Char.isDigit) : ℚ) /
          ((10 : ℚ) ^ (fr.takeWhile Char.isDigit).length))
    | _ => some ((digitsToNum (cs.takeWhile Char.isDigit) : ℚ))

/-- `parseFloat(s)` on plain decimal literals: optional sign, digits,
optional fractional digits; `none` models `NaN`. -/
def jsParseFloat (s : String) : Option ℚ :=
  match s.toList with
  | [] => none
  | c :: rest =>
    if c = '-' then (floatDigitsVal rest).map Neg.neg
    else floatDigitsVal (c :: rest)

/-- The multipart form read by `POST /api/translations`
(`src/web/src/app/api/translations/route.ts:26-49`). File payloads are
byte lists. -/
structure UploadForm where
  curseforgeId : Option String
  modpackVersion : Option String
  sourceLang : Option String
  targetLang : Option String
  isManualTranslation : Bool
  llmModel : Option String
  temperature : Option String
  batchSize : Option String
  usedGlossary : Bool
  reviewed : Bool
  resourcePack : Option (List Nat)
  overrideFile : Option (List Nat)
  anonymous : Bool
  fileCount : Option String
  totalEntries : Option String
  translatedEntries : Option String
  inputTokens : Option String
  outputTokens : Option String
  totalTokens : Option String
  handlerStats : Option String
  durationSeconds : Option String
deriving DecidableEq, Repr

/-- A row of the `TranslationPack` table as created and read by the
routes (flattened schema). -/
structure TranslationPack where
  id : String
  modpackId : Nat
  modpackVersion : String
  userId : Option String
  sourceLang : String
  targetLang : String
  status : String
  resourcePackPath : Option String
  overrideFilePath : Option String
  isManualTranslation : Bool
  llmModel : Option String
  temperature : Option ℚ
  batchSize : Option Int
  usedGlossary : Bool
  reviewed : Bool
  fileCount : Option Int
  totalEntries : Option Int
  translatedEntries : Option Int
  inputTokens : Option Int
  outputTokens : Option Int
  totalTokens : Option Int
  handlerStats : Option String
  durationSeconds : Option ℚ
  downloadCount : Nat
  createdAt : Nat
deriving DecidableEq, Repr

/-- An HTTP error response (status code and error message). -/
structure ErrResp where
  code : Nat
  msg : String
deriving DecidableEq, Repr

/-- Result of a successful upload: the created pack row and the files
written under the uploads directory (path, bytes). -/
structure UploadResult where
  pack : TranslationPack
  files : List (String × List Nat)
deriving DecidableEq, Repr

/-- The session user visible to the routes. -/
structure SessionUser where
  id : String
  isAdmin : Bool
deriving DecidableEq, Repr

/-- `POST /api/translations`
(`src/web/src/app/api/translations/route.ts:22-188`): validates the
required fields, requires at least one of the two artifacts, stores each
artifact under its own path `{packId}/{packId}_resourcepack.zip` /
`{packId}/{packId}_override.zip`, and creates the pack row with
`status = "pending"`; manual translations null out the LLM fields. The
fresh uuid and the modpack row id are passed as parameters. -/
def uploadPOST (form : UploadForm) (session : Option SessionUser) (packId : String)
    (modpackDbId : Nat) : Except ErrResp UploadResult :=
  if jsFalsy form.curseforgeId || jsFalsy form.modpackVersion then
    .error ⟨400, "Missing required fields"⟩
  else if form.resourcePack.isNone && form.overrideFile.isNone then
    .error ⟨400, "At least one file is required"⟩
  else
    let rpPath : Option String :=
      form.resourcePack.map (fun _ => packId ++ "/" ++ packId ++ "_resourcepack.zip")
    let ofPath : Option String :=
      form.overrideFile.map (fun _ => packId ++ "/" ++ packId ++ "_override.zip")
    .ok
      { pack :=
          { id := packId
            modpackId := modpackDbId
            modpackVersion := (form.modpackVersion).getD ""
            userId :=
              if !form.anonymous then session.map (fun s => s.id) else none
            sourceLang := jsOr form.sourceLang "en_us"
            targetLang := jsOr form.targetLang "ko_kr"
            status := "pending"
            resourcePackPath := rpPath
            overrideFilePath := ofPath
            isManualTranslation := form.isManualTranslation
            llmModel := if form.isManualTranslation then none else form.llmModel
            temperature :=
              if form.isManualTranslation then none
              else if jsFalsy form.temperature then none
              else jsParseFloat ((form.temperature).getD "")
            batchSize :=
              if form.isManualTranslation then none
              else if jsFalsy form.batchSize then none
              else jsParseInt ((form.batchSize).getD "")
            usedGlossary := if form.isManualTranslation then false else form.usedGlossary
            reviewed := form.reviewed
            fileCount :=
              if jsFalsy form.fileCount then none
              else jsParseInt ((form.fileCount).getD "")
            totalEntries :=
              if jsFalsy form.totalEntries then none
              else jsParseInt ((form.totalEntries).getD "")
            translatedEntries :=
              if jsFalsy form.translatedEntries then none
              else jsParseInt ((form.translatedEntries).getD "")
            inputTokens :=
              if jsFalsy form.inputTokens then none
              else jsParseInt ((form.inputTokens).getD "")
            outputTokens :=
              if jsFalsy form.outputTokens then none
              else jsParseInt ((form.outputTokens).getD "")
            totalTokens :=
              if jsFalsy form.totalTokens then none
              else jsParseInt ((form.totalTokens).getD "")
            handlerStats := if jsFalsy form.handlerStats then none else form.handlerStats
            durationSeconds :=
              if jsFalsy form.durationSeconds then none
              else jsParseFloat ((form.durationSeconds).getD "")
            downloadCount := 0
            createdAt := 0 }
        files :=
          (match form.resourcePack with
            | some bytes => [(packId ++ "/" ++ packId ++ "_resourcepack.zip", bytes)]
            | none => []) ++
          (match form.overrideFile with
            | some bytes => [(packId ++ "/" ++ packId ++ "_override.zip", bytes)]
            | none => []) }

/-- Response of the download route: an error or a served file
(download name, bytes). -/
inductive DownloadResp
  | err (code : Nat) (msg : String)
  | file (name : String) (bytes : List Nat)
deriving DecidableEq, Repr

/-- `GET /api/translations/[id]/download` (`src/unnamed/part_007`):
requires a `type` query parameter, answers 404 for an unknown pack, 403
for a pack that is not approved, serves the resource-pack artifact for
`type = "resourcepack"` and the override artifact for `type = "override"`
(when the pack has one and the file exists on disk), and 404 otherwise.
`fileAt` models the uploads directory content; `slug` the modpack slug. -/
def downloadGET (typeParam : Option String) (pack : Option TranslationPack)
    (fileAt : String → Option (List Nat)) (slug : String) : DownloadResp :=
  match typeParam with
  | none => .err 400 "Missing type parameter"
  | some t =>
    match pack with
    | none => .err 404 "Translation pack not found"
    | some p =>
      if p.status ≠ "approved" then .err 403 "Translation is not approved"
      else if t = "resourcepack" ∧ p.resourcePackPath.isSome then
        match fileAt (p.resourcePackPath.getD "") with
        | none => .err 404 "File not found"
        | some bytes =>
          .file (slug ++ "_" ++ p.modpackVersion ++ "_resourcepack.zip") bytes
      else if t = "override" ∧ p.overrideFilePath.isSome then
        match fileAt (p.overrideFilePath.getD "") with
        | none => .err 404 "File not found"
        | some bytes =>
          .file (slug ++ "_" ++ p.modpackVersion ++ "_override.zip") bytes
      else .err 404 "File type not available"

/-- Insertion of one element into a list sorted by `key` descending
(stable, matching Prisma's `orderBy ... desc`). -/
def insertDesc {α : Type} (key : α → Nat) (x : α) : List α → List α
  | [] => [x]
  | y :: ys => if key y < key x then x :: y :: ys else y :: insertDesc key x ys

/-- Sort a list by `key` descending. -/
def sortDesc {α : Type} (key : α → Nat) (l : List α) : List α :=
  l.foldr (insertDesc key) []

/-- `GET /api/translations`
(`src/web/src/app/api/translations/route.ts:190-222`): the public
listing — approved packs only, optionally filtered by modpack, newest
first, limited to 50. -/
def translationsGET (db : List TranslationPack) (modpackIdParam : Option Nat) :
    List TranslationPack :=
  ((sortDesc (fun p => p.createdAt)
      (db.filter (fun p =>
        p.status == "approved" &&
          (match modpackIdParam with
            | some m => p.modpackId == m
            | none => true)))).take 50)

/-- `POST /api/admin/translations/[id]` approve route, modpack branch
(`src/unnamed/part_011:14-93`): admin only, 404 for an unknown pack, 400
unless the pack is pending, otherwise sets `status = "approved"`. -/
def approvePOST (session : Option SessionUser) (pack : Option TranslationPack) :
    Except ErrResp TranslationPack :=
  if !(match session with | some s => s.isAdmin | none => false) then
    .error ⟨403, "Admin access required"⟩
  else
    match pack with
    | none => .error ⟨404, "Translation pack not found"⟩
    | some p =>
      if p.status ≠ "pending" then .error ⟨400, "Translation pack is not pending"⟩
      else .ok { p with status := "approved" }

/-- A row of the `Review` table as created and read by
`src/web/src/app/api/reviews/route.ts`. -/
structure Review where
  id : Nat
  packId : String
  userId : Option String
  works : Bool
  rating : Nat
  comment : Option String
  ipAddress : Option String
  isAnonymous : Bool
  createdAt : Nat
deriving DecidableEq, Repr

/-- The anonymous-review row created by `POST /api/reviews`
(`src/web/src/app/api/reviews/route.ts:138-147`): the client IP is stored
on the row for rate limiting. -/
def anonReviewCreate (rid : Nat) (packId : String) (works : Bool) (rating : Nat)
    (comment : Option String) (ip : String) (now : Nat) : Review :=
  { id := rid
    packId := packId
    userId := none
    works := works
    rating := rating
    comment := comment
    ipAddress := some ip
    isAnonymous := true
    createdAt := now }

/-- The per-review sanitization applied by `GET /api/reviews`
(`src/web/src/app/api/reviews/route.ts:181-185`): `ipAddress` is set to
undefined before the response is serialized. -/
def sanitizeReview (r : Review) : Review := { r with ipAddress := none }

/-- `GET /api/reviews` (`src/web/src/app/api/reviews/route.ts:159-187`):
the pack's reviews, newest first, each with its `ipAddress` removed. -/
def reviewsGET (db : List Review) (packId : String) : List Review :=
  (sortDesc (fun r => r.createdAt) (db.filter (fun r => r.packId == packId))).map
    sanitizeReview

/-! ### Run statistics (spec §3) and upload metadata -/

/-- Modelled from the spec: `RunStatistics` — counters accumulated during
a pipeline run: files processed, units total/translated/failed,
input/output token counts, elapsed time (whole seconds in this model). -/
structure RunStatistics where
  filesProcessed : Nat
  unitsTotal : Nat
  unitsTranslated : Nat
  unitsFailed : Nat
  inputTokens : Nat
  outputTokens : Nat
  elapsedSeconds : Nat
deriving DecidableEq, Repr

/-- Decimal string of a natural number. -/
def natToStr (n : Nat) : String := String.mk (numToDigits n)

/-- Modelled from the spec: the upload-metadata form fields filled from a
run's statistics — exactly the statistics fields the upload route reads
(`src/web/src/app/api/translations/route.ts:42-49`), over a base form
carrying the non-statistics fields. -/
def toUploadForm (st : RunStatistics) (base : UploadForm) : UploadForm :=
  { base with
    fileCount := some (natToStr st.filesProcessed)
    totalEntries := some (natToStr st.unitsTotal)
    translatedEntries := some (natToStr st.unitsTranslated)
    inputTokens := some (natToStr st.inputTokens)
    outputTokens := some (natToStr st.outputTokens)
    totalTokens := some (natToStr (st.inputTokens + st.outputTokens))
    handlerStats := base.handlerStats
    durationSeconds := some (natToStr st.elapsedSeconds) }

/-! ### Concrete fixtures used by the witnesses -/

/-- A concrete manual-translation upload form with only a resource-pack
artifact attached. -/
def sampleForm : UploadForm :=
  { curseforgeId := some "123"
    modpackVersion := some "1.0"
    sourceLang := none
    targetLang := none
    isManualTranslation := true
    llmModel := some "gpt"
    temperature := some "0.7"
    batchSize := some "25"
    usedGlossary := true
    reviewed := false
    resourcePack := some [9, 9]
    overrideFile := none
    anonymous := false
    fileCount := none
    totalEntries := none
    translatedEntries := none
    inputTokens := none
    outputTokens := none
    totalTokens := none
    handlerStats := none
    durationSeconds := none }

/-- The pack row `uploadPOST` creates for `sampleForm` (pending, LLM
fields nulled because the upload is manual). -/
def samplePackPending : TranslationPack :=
  { id := "p1"
    modpackId := 7
    modpackVersion := "1.0"
    userId := none
    sourceLang := "en_us"
    targetLang := "ko_kr"
    status := "pending"
    resourcePackPath := some "p1/p1_resourcepack.zip"
    overrideFilePath := none
    isManualTranslation := true
    llmModel := none
    temperature := none
    batchSize := none
    usedGlossary := false
    reviewed := false
    fileCount := none
    totalEntries := none
    translatedEntries := none
    inputTokens := none
    outputTokens := none
    totalTokens := none
    handlerStats := none
    durationSeconds := none
    downloadCount := 0
    createdAt := 0 }

/-- An approved pack row. -/
def sampleApproved : TranslationPack :=
  { samplePackPending with id := "p2", status := "approved", createdAt := 5 }

/-! ## Lemmas and claim theorems -/

/-- Digit rendering and parsing are mutually inverse on single digits. -/
theorem digitVal_digitChar {d : Nat} (h : d ≤ 9) : digitVal (digitChar d) = d := by
  interval_cases d <;> rfl

/-- Rendered digit characters are decimal digits. -/
theorem isDigit_digitChar {d : Nat} (h : d ≤ 9) : (digitChar d).isDigit = true := by
  interval_cases d <;> rfl

/-- Parsing after appending one digit. -/
theorem digitsToNum_append (ds : List Char) (c : Char) :
    digitsToNum (ds ++ [c]) = digitsToNum ds * 10 + digitVal c := by
  simp [digitsToNum, List.foldl_append]

/-- Fuelled decimal rendering round-trips through parsing. -/
theorem digitsToNum_numToDigitsGo : ∀ fuel n, n < fuel →
    digitsToNum (numToDigitsGo fuel n) = n := by
  intro fuel
  induction fuel with
  | zero => omega
  | succ f ih =>
    intro n hn
    by_cases h : n < 10
    · simp [numToDigitsGo, h, digitsToNum, digitVal_digitChar (by omega : n ≤ 9)]
    · have hdiv : n / 10 < n := Nat.div_lt_self (by omega) (by omega)
      simp only [numToDigitsGo, if_neg h]
      rw [digitsToNum_append, ih (n / 10) (by omega),
        digitVal_digitChar (by omega : n % 10 ≤ 9)]
      omega

/-- Decimal rendering round-trips through parsing. -/
theorem digitsToNum_numToDigits (n : Nat) : digitsToNum (numToDigits n) = n :=
  digitsToNum_numToDigitsGo (n + 1) n (Nat.lt_succ_self n)

/-- Every character of a rendered number is a decimal digit. -/
theorem isDigit_of_mem_numToDigitsGo : ∀ fuel n c, c ∈ numToDigitsGo fuel n →
    c.isDigit = true := by
  intro fuel
  induction fuel with
  | zero => intro n c h; simp [numToDigitsGo] at h
  | succ f ih =>
    intro n c h
    by_cases h10 : n < 10
    · simp [numToDigitsGo, h10] at h
      subst h
      exact isDigit_digitChar (by omega)
    · simp [numToDigitsGo, h10] at h
      rcases h with h | h
      · exact ih _ _ h
      · subst h
        exact isDigit_digitChar (by omega)

/-- Every character of `numToDigits n` is a decimal digit. -/
theorem isDigit_of_mem_numToDigits {n : Nat} {c : Char} (h : c ∈ numToDigits n) :
    c.isDigit = true :=
  isDigit_of_mem_numToDigitsGo (n + 1) n c h

/-- `takeWhile` stops exactly at the first failing element. -/
theorem takeWhile_all_append {α : Type} (p : α → Bool) :
    ∀ (ds : List α) (x : α) (t : List α), (∀ c ∈ ds, p c = true) → p x = false →
      (ds ++ x :: t).takeWhile p = ds := by
  intro ds
  induction ds with
  | nil => intro x t _ hx; simp [List.takeWhile, hx]
  | cons d ds ih =>
    intro x t hall hx
    have hd : p d = true := hall d (by simp)
    simp only [List.cons_append, List.takeWhile, hd, List.append_eq]
    rw [ih x t (fun c hc => hall c (by simp [hc])) hx]

/-- `dropWhile` stops exactly at the first failing element. -/
theorem dropWhile_all_append {α : Type} (p : α → Bool) :
    ∀ (ds : List α) (x : α) (t : List α), (∀ c ∈ ds, p c = true) → p x = false →
      (ds ++ x :: t).dropWhile p = x :: t := by
  intro ds
  induction ds with
  | nil => intro x t _ hx; simp [List.dropWhile, hx]
  | cons d ds ih =>
    intro x t hall hx
    have hd : p d = true := hall d (by simp)
    simp only [List.cons_append, List.dropWhile, hd]
    exact ih x t (fun c hc => hall c (by simp [hc])) hx

/-! ### C5 — glossary override -/

/-- Lookup in the merged glossary when the key is absent from the pack
layer falls through to the vanilla layer. -/
theorem glossaryFind_merge_of_pack_none (vanilla pack : Glossary) (k : String)
    (h : glossaryFind pack k = none) :
    glossaryFind (mergeGlossary vanilla pack) k = glossaryFind vanilla k := by
  unfold mergeGlossary glossaryFind at *
  rw [List.lookup_append, h, Option.none_or]
  induction vanilla with
  | nil => rfl
  | cons e rest ih =>
    rw [List.filter_cons]
    by_cases hk : k = e.1
    · have hnone : (List.lookup e.1 pack).isNone = true := by
        rw [← hk, h]; rfl
      simp only [glossaryFind, hnone, if_true]
      simp [List.lookup, hk]
    · have hbeq : (k == e.1) = false := by simp [hk]
      cases hpk : (List.lookup e.1 pack).isNone
      · simp only [glossaryFind, hpk, Bool.false_eq_true, if_false]
        rw [ih]
        simp [List.lookup, hbeq]
      · simp only [glossaryFind, hpk, if_true]
        simp only [List.lookup, hbeq]
        exact ih

/-- C5: on a key collision the merged glossary exposes the pack entry in
its entirety — lookup returns exactly the pack layer's entry record, with
none of the vanilla entry's fields. -/
theorem glossary_pack_overrides_vanilla (vanilla pack : Glossary) (k : String)
    (e e' : GlossaryEntry) (hp : glossaryFind pack k = some e)
    (_hv : glossaryFind vanilla k = some e') :
    glossaryFind (mergeGlossary vanilla pack) k = some e ∧
      (glossaryFind (mergeGlossary vanilla pack) k).map GlossaryEntry.aliases =
        some e.aliases ∧
      (glossaryFind (mergeGlossary vanilla pack) k).map GlossaryEntry.category =
        some e.category ∧
      (glossaryFind (mergeGlossary vanilla pack) k).map GlossaryEntry.notes =
        some e.notes := by
  have hmain : glossaryFind (mergeGlossary vanilla pack) k = some e := by
    unfold mergeGlossary glossaryFind at *
    rw [List.lookup_append, hp]
    rfl
  exact ⟨hmain, by rw [hmain]; rfl, by rw [hmain]; rfl, by rw [hmain]; rfl⟩

/-! ### C1 — handler round-trip identity -/

/-- `renderSegs` distributes over append. -/
theorem renderSegs_append (a b : List Seg) :
    renderSegs (a ++ b) = renderSegs a ++ renderSegs b := by
  simp [renderSegs]

/-- `splitFirst` decomposes its input around the separator. -/
theorem splitFirst_eq (sep : Char) :
    ∀ (cs k v : List Char), splitFirst sep cs = some (k, v) → cs = k ++ sep :: v := by
  intro cs
  induction cs with
  | nil => intro k v h; simp [splitFirst] at h
  | cons c rest ih =>
    intro k v h
    by_cases hc : c = sep
    · rw [splitFirst, if_pos hc] at h
      simp only [Option.some.injEq, Prod.mk.injEq] at h
      obtain ⟨hk, hv⟩ := h
      subst hk
      subst hv
      simp [hc]
    · rw [splitFirst, if_neg hc] at h
      cases hsp : splitFirst sep rest with
      | none => rw [hsp] at h; simp at h
      | some p =>
        rw [hsp] at h
        simp only [Option.map_some', Option.some.injEq, Prod.mk.injEq] at h
        obtain ⟨hk, hv⟩ := h
        have hrest := ih p.1 p.2 (by rw [hsp])
        subst hk
        subst hv
        simp [hrest]

/-- A line's segments serialize back to the line. -/
theorem renderSegs_segLine (cs : List Char) : renderSegs (segLine cs) = cs := by
  unfold segLine
  cases h : splitFirst '=' cs with
  | none => simp [renderSegs, renderSeg]
  | some p =>
    have := splitFirst_eq '=' cs p.1 p.2 (by rw [h])
    simp [renderSegs, renderSeg, this]

/-- `splitLines` never returns an empty list of lines. -/
theorem splitLines_ne_nil (s : List Char) : splitLines s ≠ [] := by
  cases s with
  | nil => simp [splitLines]
  | cons c rest =>
    unfold splitLines
    by_cases hc : c = '\n'
    · simp [hc]
    · rw [if_neg hc]
      cases h : splitLines rest <;> simp

/-- `joinLines` on a list with at least two lines. -/
theorem joinLines_cons (l : List Char) (ls : List (List Char)) (h : ls ≠ []) :
    joinLines (l :: ls) = l ++ '\n' :: joinLines ls := by
  cases ls with
  | nil => exact absurd rfl h
  | cons l' ls' => rfl

/-- `joinLines` is a left inverse of `splitLines`. -/
theorem joinLines_splitLines : ∀ s, joinLines (splitLines s) = s := by
  intro s
  induction s with
  | nil => rfl
  | cons c rest ih =>
    unfold splitLines
    by_cases hc : c = '\n'
    · rw [if_pos hc, joinLines_cons [] (splitLines rest) (splitLines_ne_nil rest), hc, ih]
      rfl
    · rw [if_neg hc]
      cases h : splitLines rest with
      | nil => exact absurd h (splitLines_ne_nil rest)
      | cons l ls =>
        rw [h] at ih
        cases ls with
        | nil =>
          simp only [joinLines] at ih ⊢
          rw [ih]
        | cons l' ls' =>
          rw [joinLines_cons (c :: l) (l' :: ls') (by simp)]
          rw [joinLines_cons l (l' :: ls') (by simp)] at ih
          rw [List.cons_append, ih]

/-- A language file's segments serialize back to the joined lines. -/
theorem renderSegs_segLangLines : ∀ ls, renderSegs (segLangLines ls) = joinLines ls := by
  intro ls
  induction ls with
  | nil => rfl
  | cons l ls ih =>
    cases ls with
    | nil => simp [segLangLines, joinLines, renderSegs_segLine]
    | cons l' ls' =>
      show renderSegs (segLine l ++ (Seg.lit ['\n'] :: segLangLines (l' :: ls'))) = _
      rw [renderSegs_append, renderSegs_segLine,
        joinLines_cons l (l' :: ls') (by simp)]
      show l ++ ('\n' :: renderSegs (segLangLines (l' :: ls'))) = _
      rw [ih]

/-- Unfolding of the script segmentation on a cons cell. -/
theorem segScriptGo_succ_cons (f : Nat) (c : Char) (rest : List Char) :
    segScriptGo (f + 1) (c :: rest) =
      if c = '"' then
        match splitFirst '"' rest with
        | some (inner, after) =>
          .lit ['"'] :: .tr inner :: .lit ['"'] :: segScriptGo f after
        | none => [.lit (c :: rest)]
      else .lit [c] :: segScriptGo f rest := rfl

/-- A script file's segments serialize back to the file. -/
theorem renderSegs_segScriptGo : ∀ fuel s, renderSegs (segScriptGo fuel s) = s := by
  intro fuel
  induction fuel with
  | zero =>
    intro s
    cases s with
    | nil => rfl
    | cons c rest => simp [segScriptGo, renderSegs, renderSeg]
  | succ f ih =>
    intro s
    cases s with
    | nil => rfl
    | cons c rest =>
      rw [segScriptGo_succ_cons]
      by_cases hc : c = '"'
      · rw [if_pos hc]
        cases h : splitFirst '"' rest with
        | none => simp [renderSegs, renderSeg]
        | some p =>
          have hrest := splitFirst_eq '"' rest p.1 p.2 (by rw [h])
          show renderSegs (.lit ['"'] :: .tr p.1 :: .lit ['"'] :: segScriptGo f p.2) = c :: rest
          simp only [renderSegs, List.map, renderSeg, List.flatten]
          have := ih p.2
          simp only [renderSegs] at this
          rw [this, hc, hrest]
          simp
      · rw [if_neg hc]
        show renderSegs (.lit [c] :: segScriptGo f rest) = c :: rest
        simp only [renderSegs, List.map, renderSeg, List.flatten]
        have := ih rest
        simp only [renderSegs] at this
        rw [this]
        simp

/-- Every supported grammar's segmentation serializes back to the
original file bytes. -/
theorem segment_renders (g : FileGrammar) (s : List Char) : renderSegs (segment g s) = s := by
  cases g with
  | langFile =>
    show renderSegs (segLangLines (splitLines s)) = s
    rw [renderSegs_segLangLines, joinLines_splitLines]
  | script => exact renderSegs_segScriptGo s.length s

/-- Substituting every translatable span by its own source text
re-serializes the segments unchanged. -/
theorem applySegs_fillIdentity : ∀ (segs : List Seg) (n : Nat),
    applySegs segs (fillIdentity (extractSegs n segs)) = renderSegs segs := by
  intro segs
  induction segs with
  | nil => intro n; rfl
  | cons sg rest ih =>
    intro n
    cases sg with
    | lit cs =>
      show cs ++ applySegs rest (fillIdentity (extractSegs n rest)) = _
      rw [ih n]
      simp [renderSegs, renderSeg]
    | tr cs =>
      show (Option.getD (some cs) _) ++ applySegs rest (fillIdentity (extractSegs (n + 1) rest)) = _
      rw [ih (n + 1)]
      simp [renderSegs, renderSeg]

/-- C1: for every supported file grammar and every input file, extracting
the units and applying them back with each unit's `translatedText` set
equal to its `sourceText` reproduces the original file byte-for-byte. -/
theorem handler_roundtrip_identity (g : FileGrammar) (file : List Char) :
    handlerApply g file (fillIdentity (handlerExtract g file)) = file := by
  unfold handlerApply handlerExtract
  rw [applySegs_fillIdentity (segment g file) 0, segment_renders]

/-! ### C2 — mask/unmask round trip -/

/-- A protected-span match is nonempty and lies within the input. -/
theorem matchProtected_bounds {s : List Char} {k : Nat} (h : matchProtected s = some k) :
    0 < k ∧ k ≤ s.length := by
  unfold matchProtected at h
  split at h
  · simp only [Option.some.injEq] at h
    subst h; simp only [List.length_cons]; omega
  · simp only [Option.some.injEq] at h
    subst h; simp only [List.length_cons]; omega
  · rename_i rest hns hnd
    dsimp only at h
    split at h
    · exact absurd h (by simp)
    · rename_i hne
      have hsplit := List.takeWhile_append_dropWhile (p := Char.isDigit) (l := rest)
      have hlen : rest.length = (rest.takeWhile Char.isDigit).length +
          (rest.dropWhile Char.isDigit).length := by
        rw [← List.length_append, hsplit]
      split at h
      · rename_i tail heq
        simp only [Option.some.injEq] at h
        subst h
        rw [heq] at hlen
        simp only [List.length_cons] at hlen
        simp only [List.length_cons]
        omega
      · rename_i tail heq
        simp only [Option.some.injEq] at h
        subst h
        rw [heq] at hlen
        simp only [List.length_cons] at hlen
        simp only [List.length_cons]
        omega
      · exact absurd h (by simp)
  · rename_i rest
    split at h
    · rename_i inner after heq
      simp only [Option.some.injEq] at h
      subst h
      have := splitFirst_eq '}' rest inner after heq
      subst this
      simp only [List.length_cons, List.length_append, List.length_cons]
      omega
    · exact absurd h (by simp)
  · simp only [Option.some.injEq] at h
    subst h; simp only [List.length_cons]; omega
  · simp only [Option.some.injEq] at h
    subst h; simp only [List.length_cons]; omega
  · simp only [Option.some.injEq] at h
    subst h; simp only [List.length_cons]; omega
  · exact absurd h (by simp)

/-- Unfolding of the mask scan when a protected span matches. -/
theorem maskGo_succ_match (a : Nat) {s : List Char} {k : Nat} (f n : Nat)
    (h : matchProtected s = some k) :
    maskGo a (f + 1) n s =
      (mkToken a n ++ (maskGo a f (n + 1) (s.drop k)).1,
        (n, s.take k) :: (maskGo a f (n + 1) (s.drop k)).2) := by
  simp only [maskGo, h]

/-- Unfolding of the mask scan when no protected span matches. -/
theorem maskGo_succ_none (a : Nat) {c : Char} {rest : List Char} (f n : Nat)
    (h : matchProtected (c :: rest) = none) :
    maskGo a (f + 1) n (c :: rest) =
      (c :: (maskGo a f n rest).1, (maskGo a f n rest).2) := by
  simp only [maskGo, h]

/-- The mask scan on an empty input. -/
theorem maskGo_succ_nil (a f n : Nat) : maskGo a (f + 1) n [] = ([], []) := rfl

/-- Unmasking the empty masked text. -/
theorem unmaskGo_nil (a fu : Nat) (tm : List (Nat × List Char)) :
    unmaskGo a fu tm [] = [] := by
  cases fu <;> rfl

/-- Unfolding of the unmask scan on a cons cell. -/
theorem unmaskGo_succ_cons (a fu : Nat) (tm : List (Nat × List Char)) (c : Char)
    (rest : List Char) :
    unmaskGo a (fu + 1) tm (c :: rest) =
      if (c :: rest).take (a + 2) = List.replicate (a + 1) '⟦' ++ ['T'] then
        match ((c :: rest).drop (a + 2)).dropWhile Char.isDigit with
        | '⟧' :: rest2 =>
          ((tm.lookup
              (digitsToNum (((c :: rest).drop (a + 2)).takeWhile Char.isDigit))).getD []) ++
            unmaskGo a fu tm rest2
        | _ => c :: unmaskGo a fu tm rest
      else c :: unmaskGo a fu tm rest := rfl

/-- Unmasking steps over a character that does not open a token of the
alphabet. -/
theorem unmaskGo_cons_fail (a fu : Nat) (tm : List (Nat × List Char)) (c : Char)
    (rest : List Char)
    (h : (c :: rest).take (a + 2) ≠ List.replicate (a + 1) '⟦' ++ ['T']) :
    unmaskGo a (fu + 1) tm (c :: rest) = c :: unmaskGo a fu tm rest := by
  rw [unmaskGo_succ_cons, if_neg h]

/-- A token followed by more masked text, written with the trailing text
inside the token's append structure. -/
theorem mkToken_append (a n : Nat) (m : List Char) :
    mkToken a n ++ m =
      List.replicate (a + 1) '⟦' ++ ('T' :: (numToDigits n ++ '⟧' :: m)) := by
  simp [mkToken]

/-- The opener-check window at the start of a token. -/
theorem take_mkToken (a n : Nat) (m : List Char) :
    (mkToken a n ++ m).take (a + 2) = List.replicate (a + 1) '⟦' ++ ['T'] := by
  rw [mkToken_append]
  have h1 : a + 2 = (List.replicate (a + 1) '⟦').length + 1 := by simp
  rw [h1, List.take_append]
  rfl

/-- The text following the opener-check window of a token. -/
theorem drop_mkToken (a n : Nat) (m : List Char) :
    (mkToken a n ++ m).drop (a + 2) = numToDigits n ++ '⟧' :: m := by
  rw [mkToken_append]
  have h1 : a + 2 = (List.replicate (a + 1) '⟦').length + 1 := by simp
  rw [h1, List.drop_append]
  rfl

/-- Unmasking consumes one whole token and emits the token map's entry. -/
theorem unmaskGo_token (a fu : Nat) (tm : List (Nat × List Char)) (k : Nat)
    (m : List Char) :
    unmaskGo a (fu + 1) tm (mkToken a k ++ m) =
      (tm.lookup k).getD [] ++ unmaskGo a fu tm m := by
  have hdrop : (numToDigits k ++ '⟧' :: m).dropWhile Char.isDigit = '⟧' :: m :=
    dropWhile_all_append Char.isDigit (numToDigits k) '⟧' m
      (fun c hc => isDigit_of_mem_numToDigits hc) (by decide)
  have htake : (numToDigits k ++ '⟧' :: m).takeWhile Char.isDigit = numToDigits k :=
    takeWhile_all_append Char.isDigit (numToDigits k) '⟧' m
      (fun c hc => isDigit_of_mem_numToDigits hc) (by decide)
  have hcons : mkToken a k ++ m =
      '⟦' :: (List.replicate a '⟦' ++ ('T' :: (numToDigits k ++ '⟧' :: m))) := by
    rw [mkToken_append, List.replicate_succ, List.cons_append]
  rw [hcons, unmaskGo_succ_cons]
  rw [if_pos (by rw [← hcons]; exact take_mkToken a k m)]
  have hd : ('⟦' :: (List.replicate a '⟦' ++ ('T' :: (numToDigits k ++ '⟧' :: m)))).drop
      (a + 2) = numToDigits k ++ '⟧' :: m := by
    rw [← hcons]
    exact drop_mkToken a k m
  rw [hd, hdrop, htake, digitsToNum_numToDigits]
  simp

/-- Every token index recorded by the mask scan is at least the scan's
starting counter. -/
theorem maskGo_keys_ge (a : Nat) : ∀ (f : Nat) (n : Nat) (s : List Char) (j : Nat)
    (sp : List Char), (j, sp) ∈ (maskGo a f n s).2 → n ≤ j := by
  intro f
  induction f with
  | zero => intro n s j sp h; simp [maskGo] at h
  | succ f ih =>
    intro n s j sp h
    cases hm : matchProtected s with
    | some k =>
      rw [maskGo_succ_match a f n hm] at h
      rcases List.mem_cons.1 h with h | h
      · injection h with h1 _; omega
      · have := ih (n + 1) (s.drop k) j sp h
        omega
    | none =>
      cases s with
      | nil =>
        rw [maskGo_succ_nil] at h
        simp at h
      | cons c rest =>
        rw [maskGo_succ_none a f n hm] at h
        exact ih n rest j sp h

/-- The token map built by the mask scan correctly looks up each of its
own entries. -/
theorem maskGo_lookup_self (a : Nat) : ∀ (f : Nat) (n : Nat) (s : List Char) (j : Nat)
    (sp : List Char), (j, sp) ∈ (maskGo a f n s).2 →
      (maskGo a f n s).2.lookup j = some sp := by
  intro f
  induction f with
  | zero => intro n s j sp h; simp [maskGo] at h
  | succ f ih =>
    intro n s j sp h
    cases hm : matchProtected s with
    | some k =>
      rw [maskGo_succ_match a f n hm] at h ⊢
      rcases List.mem_cons.1 h with h | h
      · injection h with h1 h2
        subst h1
        subst h2
        simp [List.lookup]
      · have hge := maskGo_keys_ge a f (n + 1) (s.drop k) j sp h
        have hne : (j == n) = false := by
          simp only [beq_eq_false_iff_ne, ne_eq]
          omega
        simp only [List.lookup, hne]
        exact ih (n + 1) (s.drop k) j sp h
    | none =>
      cases s with
      | nil =>
        rw [maskGo_succ_nil] at h
        simp at h
      | cons c rest =>
        rw [maskGo_succ_none a f n hm] at h ⊢
        exact ih n rest j sp h

/-- The token indices recorded by the mask scan are consecutive, starting
at the scan's starting counter. -/
theorem maskGo_keys_range (a : Nat) : ∀ (f : Nat) (n : Nat) (s : List Char),
    (maskGo a f n s).2.map Prod.fst = List.range' n (maskGo a f n s).2.length := by
  intro f
  induction f with
  | zero => intro n s; simp [maskGo]
  | succ f ih =>
    intro n s
    cases hm : matchProtected s with
    | some k =>
      rw [maskGo_succ_match a f n hm]
      simp only [List.map_cons, List.length_cons, List.range'_succ]
      rw [ih (n + 1) (s.drop k)]
    | none =>
      cases s with
      | nil => simp [maskGo_succ_nil]
      | cons c rest =>
        rw [maskGo_succ_none a f n hm]
        exact ih n rest

/-- No window of the masked text of a string with fewer than `j` opener
characters looks like the opener check of a `j`-opener token: the spec's
failure policy makes the chosen alphabet collision-free. -/
theorem maskGo_no_token_prefix (a : Nat) : ∀ (fm : Nat) (s : List Char) (n j : Nat),
    1 ≤ j → j ≤ a → s.count '⟦' < j →
    (maskGo a fm n s).1.take (j + 1) ≠ List.replicate j '⟦' ++ ['T'] := by
  intro fm
  induction fm with
  | zero =>
    intro s n j hj1 hja hcount heq
    rw [show (maskGo a 0 n s).1 = [] from rfl] at heq
    have := congrArg List.length heq
    simp at this
  | succ f ih =>
    intro s n j hj1 hja hcount heq
    cases hm : matchProtected s with
    | some k =>
      rw [maskGo_succ_match a f n hm] at heq
      rw [mkToken_append] at heq
      rw [List.take_append_of_le_length (by simp; omega)] at heq
      rw [List.take_replicate] at heq
      have hmin : (j + 1) ⊓ (a + 1) = j + 1 := by omega
      rw [hmin] at heq
      have := congrArg (fun l => l[j]?) heq
      simp only [List.getElem?_replicate] at this
      rw [List.getElem?_append_right (by simp)] at this
      simp at this
    | none =>
      cases s with
      | nil =>
        rw [maskGo_succ_nil] at heq
        have := congrArg List.length heq
        simp at this
      | cons c rest =>
        rw [maskGo_succ_none a f n hm] at heq
        cases j with
        | zero => omega
        | succ j' =>
          rw [List.replicate_succ, List.cons_append, List.take_succ_cons] at heq
          injection heq with h1 h2
          have hca : (c :: rest).count '⟦' = rest.count '⟦' + 1 := by
            rw [h1]
            simp [List.count_cons]
          have hj'1 : 1 ≤ j' := by omega
          exact ih rest n j' hj'1 (by omega) (by omega) h2

/-- Unmasking the masked text under any token map that agrees with the
scan's own entries restores the original text, whenever the alphabet
dominates the number of opener characters in the input. -/
theorem unmaskGo_maskGo (a : Nat) : ∀ (fm : Nat) (s : List Char) (n : Nat)
    (tm : List (Nat × List Char)) (fu : Nat),
    s.length ≤ fm → (maskGo a fm n s).1.length ≤ fu → s.count '⟦' ≤ a →
    (∀ j sp, (j, sp) ∈ (maskGo a fm n s).2 → tm.lookup j = some sp) →
    unmaskGo a fu tm (maskGo a fm n s).1 = s := by
  intro fm
  induction fm with
  | zero =>
    intro s n tm fu hlen _ _ _
    have : s = [] := List.length_eq_zero.1 (by omega)
    subst this
    simp [maskGo, unmaskGo_nil]
  | succ f ih =>
    intro s n tm fu hlen hfu hcount htm
    cases hm : matchProtected s with
    | some k =>
      obtain ⟨hk0, hkle⟩ := matchProtected_bounds hm
      rw [maskGo_succ_match a f n hm] at hfu htm ⊢
      cases fu with
      | zero =>
        exfalso
        have hfu' : (mkToken a n ++ (maskGo a f (n + 1) (s.drop k)).1).length ≤ 0 := hfu
        have : 0 < (mkToken a n ++ (maskGo a f (n + 1) (s.drop k)).1).length := by
          simp [mkToken]
        omega
      | succ fu' =>
        rw [unmaskGo_token a fu' tm n (maskGo a f (n + 1) (s.drop k)).1]
        have hlk : tm.lookup n = some (s.take k) :=
          htm n (s.take k) (List.mem_cons_self _ _)
        rw [hlk]
        have hrec : unmaskGo a fu' tm (maskGo a f (n + 1) (s.drop k)).1 = s.drop k := by
          apply ih (s.drop k) (n + 1) tm fu'
          · rw [List.length_drop]; omega
          · have h1 : 1 ≤ (mkToken a n).length := by
              simp [mkToken]
              omega
            rw [List.length_append] at hfu
            omega
          · calc (s.drop k).count '⟦' ≤ s.count '⟦' :=
                List.Sublist.count_le (List.drop_sublist k s) '⟦'
              _ ≤ a := hcount
          · intro j sp hmem
            exact htm j sp (List.mem_cons_of_mem _ hmem)
        rw [hrec]
        simp [List.take_append_drop]
    | none =>
      cases s with
      | nil => simp [maskGo_succ_nil, unmaskGo_nil]
      | cons c rest =>
        rw [maskGo_succ_none a f n hm] at hfu htm ⊢
        cases fu with
        | zero => simp at hfu
        | succ fu' =>
          have hsucc : a + 2 = (a + 1) + 1 := rfl
          have hcfail : (c :: (maskGo a f n rest).1).take (a + 2) ≠
              List.replicate (a + 1) '⟦' ++ ['T'] := by
            by_cases hc : c = '⟦'
            · have hca : (c :: rest).count '⟦' = rest.count '⟦' + 1 := by
                rw [hc]
                simp [List.count_cons]
              intro heq
              rw [List.replicate_succ, List.cons_append, hsucc,
                List.take_succ_cons] at heq
              injection heq with h1 h2
              exact maskGo_no_token_prefix a f rest n a (by omega) (le_refl a)
                (by omega) h2
            · intro heq
              rw [List.replicate_succ, List.cons_append, hsucc,
                List.take_succ_cons] at heq
              injection heq with h1 _
              exact hc h1
          rw [unmaskGo_cons_fail a fu' tm c _ hcfail]
          have hrec : unmaskGo a fu' tm (maskGo a f n rest).1 = rest := by
            apply ih rest n tm fu'
            · simp only [List.length_cons] at hlen; omega
            · simp only [List.length_cons] at hfu; omega
            · have : rest.count '⟦' ≤ (c :: rest).count '⟦' := by
                rw [List.count_cons]
                split <;> omega
              omega
            · exact htm
          rw [hrec]

/-- C2: for every input string, `unmask(mask(s)) = s` — including
pathological input containing token-like text, handled per the spec's
failure policy by a collision-free alphabet choice — and the token
numbering is canonical: the token map's indices are exactly `0, 1, 2, …`
in order of first appearance, so `mask`, a pure function of its input,
yields the identical masked text and token sequence whenever it is re-run
on the same input. -/
theorem mask_unmask_roundtrip (s : List Char) :
    unmask (mask s).2 (mask s).1 = s ∧
      (mask s).2.2.map Prod.fst = List.range (mask s).2.2.length := by
  constructor
  · show unmaskGo (s.count '⟦') (maskGo (s.count '⟦') s.length 0 s).1.length
        (maskGo (s.count '⟦') s.length 0 s).2 (maskGo (s.count '⟦') s.length 0 s).1 = s
    exact unmaskGo_maskGo (s.count '⟦') s.length s 0 (maskGo (s.count '⟦') s.length 0 s).2
      (maskGo (s.count '⟦') s.length 0 s).1.length (Nat.le_refl _) (Nat.le_refl _)
      (Nat.le_refl _)
      (fun j sp h => maskGo_lookup_self (s.count '⟦') s.length 0 s j sp h)
  · rw [List.range_eq_range']
    exact maskGo_keys_range (s.count '⟦') s.length 0 s

/-- Witness for C2 on a pathological input that contains a standard-
alphabet token verbatim: the failure policy's fresh alphabet keeps the
round trip exact. -/
theorem mask_unmask_roundtrip_witness :
    unmask (mask "⟦T5⟧%s".toList).2 (mask "⟦T5⟧%s".toList).1 = "⟦T5⟧%s".toList ∧
      (mask "⟦T5⟧%s".toList).2.2.map Prod.fst =
        List.range (mask "⟦T5⟧%s".toList).2.2.length :=
  mask_unmask_roundtrip "⟦T5⟧%s".toList

/-! ### C3 — retry exhaustion fallback and partial-failure isolation -/

/-- A unit whose capability call always fails ends `failed` with the
source text as fallback, whatever the retry budget. -/
theorem resolveUnit_of_cap_none (cap : Nat → Option (List Char)) (u : TUnit)
    (hfail : cap u.id = none) :
    ∀ fuel, resolveUnit cap fuel u =
      { u with status := .failed, translatedText := some u.sourceText } := by
  intro fuel
  induction fuel with
  | zero => rfl
  | succ f ih => rw [resolveUnit, hfail]; exact ih

/-- A unit whose capability call returns a valid output is translated on
the first attempt. -/
theorem resolveUnit_of_cap_some (cap : Nat → Option (List Char)) (u : TUnit)
    (t : List Char) (hok : cap u.id = some t) (hv : validOutput u t = true) :
    ∀ fuel, resolveUnit cap (fuel + 1) u =
      { u with status := .translated, translatedText := some t } := by
  intro fuel
  rw [resolveUnit, hok]
  simp [hv]

/-- C3: in a batch of five whose capability fails for exactly one unit,
after the run that unit is `failed` with `translatedText = sourceText`
while the other four are `translated`; and in general any unit whose
capability never answers ends `failed` keeping `sourceText` as
fallback after `maxRetries` is exhausted. -/
theorem batch_failure_isolation (cap : Nat → Option (List Char)) (mr : Nat)
    (units : List TUnit) (i : Nat) (u : TUnit) (h5 : units.length = 5)
    (hu : units[i]? = some u) (hfail : cap u.id = none)
    (hok : ∀ (j : Nat) (v : TUnit), j ≠ i → units[j]? = some v →
      ∃ t, cap v.id = some t ∧ validOutput v t = true) :
    (runBatch cap mr units).length = 5 ∧
      (runBatch cap mr units)[i]? =
        some { u with status := .failed, translatedText := some u.sourceText } ∧
      (∀ (j : Nat) (v : TUnit), j ≠ i → units[j]? = some v →
        ∃ t, cap v.id = some t ∧
          (runBatch cap mr units)[j]? =
            some { v with status := .translated, translatedText := some t }) ∧
      (∀ (j : Nat) (v : TUnit), units[j]? = some v → cap v.id = none →
        (runBatch cap mr units)[j]? =
          some { v with status := .failed, translatedText := some v.sourceText }) := by
  refine ⟨?_, ?_, ?_, ?_⟩
  · simp [runBatch, h5]
  · rw [runBatch, List.getElem?_map, hu]
    simp [resolveUnit_of_cap_none cap u hfail]
  · intro j v hj hv
    obtain ⟨t, hct, hvt⟩ := hok j v hj hv
    refine ⟨t, hct, ?_⟩
    rw [runBatch, List.getElem?_map, hv]
    simp [resolveUnit_of_cap_some cap v t hct hvt]
  · intro j v hv hc
    rw [runBatch, List.getElem?_map, hv]
    simp [resolveUnit_of_cap_none cap v hc]

/-- Witness for C3: five concrete units with the capability failing for
unit id 2 only. -/
theorem batch_failure_isolation_witness :
    (runBatch (fun n => if n = 2 then none else some ['x']) 3
        [⟨0, ['a'], none, .pending⟩, ⟨1, ['b'], none, .pending⟩, ⟨2, ['c'], none, .pending⟩,
          ⟨3, ['d'], none, .pending⟩, ⟨4, ['e'], none, .pending⟩]).length = 5 ∧
      (runBatch (fun n => if n = 2 then none else some ['x']) 3
          [⟨0, ['a'], none, .pending⟩, ⟨1, ['b'], none, .pending⟩, ⟨2, ['c'], none, .pending⟩,
            ⟨3, ['d'], none, .pending⟩, ⟨4, ['e'], none, .pending⟩])[2]? =
        some ⟨2, ['c'], some ['c'], .failed⟩ := by
  have h := batch_failure_isolation (fun n => if n = 2 then none else some ['x']) 3
    [⟨0, ['a'], none, .pending⟩, ⟨1, ['b'], none, .pending⟩, ⟨2, ['c'], none, .pending⟩,
      ⟨3, ['d'], none, .pending⟩, ⟨4, ['e'], none, .pending⟩]
    2 ⟨2, ['c'], none, .pending⟩ (by decide) (by decide) (by decide)
    (by
      intro j v hj hv
      match j with
      | 0 => exact ⟨['x'], by injection hv with h; rw [← h]; rfl, by injection hv with h; rw [← h]; rfl⟩
      | 1 => exact ⟨['x'], by injection hv with h; rw [← h]; rfl, by injection hv with h; rw [← h]; rfl⟩
      | 2 => exact absurd rfl hj
      | 3 => exact ⟨['x'], by injection hv with h; rw [← h]; rfl, by injection hv with h; rw [← h]; rfl⟩
      | 4 => exact ⟨['x'], by injection hv with h; rw [← h]; rfl, by injection hv with h; rw [← h]; rfl⟩
      | j + 5 => simp at hv)
  exact ⟨h.1, h.2.1⟩

/-! ### C4 — batch bounds -/

/-- A batch within both configured bounds. -/
def okBatch (cfg : BatchConfig) (b : List TUnit) : Prop :=
  b.length ≤ cfg.maxUnits ∧ batchChars b ≤ cfg.maxChars

/-- Batch character count of an appended unit. -/
theorem batchChars_append (b : List TUnit) (u : TUnit) :
    batchChars (b ++ [u]) = batchChars b + unitChars u := by
  simp [batchChars]

/-- The empty batch is within bounds. -/
theorem okBatch_nil (cfg : BatchConfig) : okBatch cfg [] := by
  constructor <;> simp [batchChars]

/-- The greedy builder's step keeps every finished batch and the open
batch within bounds. -/
theorem stepBatch_inv (cfg : BatchConfig) (st : List (List TUnit) × List TUnit)
    (u : TUnit) (h1 : ∀ b ∈ st.1, okBatch cfg b) (h2 : okBatch cfg st.2) :
    (∀ b ∈ (stepBatch cfg st u).1, okBatch cfg b) ∧ okBatch cfg (stepBatch cfg st u).2 := by
  unfold stepBatch
  by_cases hf : fitsSingleton cfg u = true
  · have hf' := hf
    unfold fitsSingleton at hf'
    rw [Bool.and_eq_true] at hf'
    obtain ⟨hfu, hfc⟩ := hf'
    rw [decide_eq_true_eq] at hfu hfc
    by_cases hadd :
        (st.2.length + 1 ≤ cfg.maxUnits && batchChars st.2 + unitChars u ≤ cfg.maxChars) = true
    · rw [Bool.and_eq_true, decide_eq_true_eq, decide_eq_true_eq] at hadd
      simp only [hf, if_true]
      rw [if_pos]
      · refine ⟨h1, ?_, ?_⟩
        · simpa using hadd.1
        · rw [batchChars_append]; exact hadd.2
      · rw [Bool.and_eq_true, decide_eq_true_eq, decide_eq_true_eq]; exact hadd
    · simp only [hf, if_true]
      rw [if_neg hadd]
      refine ⟨?_, ?_, ?_⟩
      · intro b hb
        rcases List.mem_append.1 hb with hb | hb
        · exact h1 b hb
        · rw [List.mem_singleton] at hb
          subst hb
          exact h2
      · simpa using hfu
      · simpa [batchChars, unitChars] using hfc
  · rw [Bool.not_eq_true] at hf
    simp only [hf, Bool.false_eq_true, if_false]
    exact ⟨h1, h2⟩

/-- The fold of the greedy builder preserves the bound invariant. -/
theorem foldl_stepBatch_inv (cfg : BatchConfig) :
    ∀ (units : List TUnit) (st : List (List TUnit) × List TUnit),
      (∀ b ∈ st.1, okBatch cfg b) → okBatch cfg st.2 →
      (∀ b ∈ (units.foldl (stepBatch cfg) st).1, okBatch cfg b) ∧
        okBatch cfg (units.foldl (stepBatch cfg) st).2 := by
  intro units
  induction units with
  | nil => intro st h1 h2; exact ⟨h1, h2⟩
  | cons u rest ih =>
    intro st h1 h2
    have hstep := stepBatch_inv cfg st u h1 h2
    exact ih (stepBatch cfg st u) hstep.1 hstep.2

/-- C4: for any input unit set and any `maxUnits`/`maxChars`
configuration, no constructed batch exceeds either bound. -/
theorem batch_bounds_respected (cfg : BatchConfig) (units : List TUnit) :
    ∀ b ∈ buildBatches cfg units, b.length ≤ cfg.maxUnits ∧ batchChars b ≤ cfg.maxChars := by
  intro b hb
  have hinv := foldl_stepBatch_inv cfg units ([], [])
    (by intro b hb; simp at hb) (okBatch_nil cfg)
  unfold buildBatches at hb
  by_cases he : (units.foldl (stepBatch cfg) ([], [])).2.isEmpty = true
  · rw [if_pos he] at hb
    exact hinv.1 b hb
  · rw [if_neg he] at hb
    rcases List.mem_append.1 hb with hb | hb
    · exact hinv.1 b hb
    · rw [List.mem_singleton] at hb
      subst hb
      exact hinv.2

/-- Witness for C4 at a concrete configuration and unit set. -/
theorem batch_bounds_respected_witness :
    ([⟨0, ['a', 'b'], none, .pending⟩, ⟨1, ['c'], none, .pending⟩] ∈
        buildBatches ⟨2, 10⟩
          [⟨0, ['a', 'b'], none, .pending⟩, ⟨1, ['c'], none, .pending⟩,
            ⟨2, ['d', 'e', 'f'], none, .pending⟩]) ∧
      ([⟨0, ['a', 'b'], none, .pending⟩, ⟨1, ['c'], none, .pending⟩] : List TUnit).length ≤ 2 ∧
      batchChars [⟨0, ['a', 'b'], none, .pending⟩, ⟨1, ['c'], none, .pending⟩] ≤ 10 :=
  ⟨by decide,
    batch_bounds_respected ⟨2, 10⟩
      [⟨0, ['a', 'b'], none, .pending⟩, ⟨1, ['c'], none, .pending⟩,
        ⟨2, ['d', 'e', 'f'], none, .pending⟩]
      [⟨0, ['a', 'b'], none, .pending⟩, ⟨1, ['c'], none, .pending⟩] (by decide)⟩

/-! ### C6 — two output roots, upload and download -/

/-- C6: the pack output consists of the two roots — a resource-pack
artifact and an override artifact. An upload with neither is rejected
with HTTP 400 and no pack is created; on success each artifact is stored
under its own (distinct) path; a download request must carry a `type`
parameter and is served exactly for `"resourcepack"` or `"override"`
(from the corresponding stored path), any other type being rejected. -/
theorem pack_output_two_roots :
    (∀ (form : UploadForm) (sess : Option SessionUser) (pid : String) (mid : Nat),
      form.resourcePack = none → form.overrideFile = none →
        ∃ msg, uploadPOST form sess pid mid = .error ⟨400, msg⟩) ∧
    (∀ (form : UploadForm) (sess : Option SessionUser) (pid : String) (mid : Nat)
        (r : UploadResult), uploadPOST form sess pid mid = .ok r →
      (form.resourcePack.isSome = true ∨ form.overrideFile.isSome = true) ∧
      r.pack.resourcePackPath =
        form.resourcePack.map (fun _ => pid ++ "/" ++ pid ++ "_resourcepack.zip") ∧
      r.pack.overrideFilePath =
        form.overrideFile.map (fun _ => pid ++ "/" ++ pid ++ "_override.zip") ∧
      (∀ p q, r.pack.resourcePackPath = some p → r.pack.overrideFilePath = some q →
        p ≠ q)) ∧
    (∀ (pack : Option TranslationPack) (fileAt : String → Option (List Nat))
        (slug : String),
      downloadGET none pack fileAt slug = .err 400 "Missing type parameter") ∧
    (∀ (t : String) (p : TranslationPack) (fileAt : String → Option (List Nat))
        (slug name : String) (bytes : List Nat),
      downloadGET (some t) (some p) fileAt slug = .file name bytes →
        (t = "resourcepack" ∧ ∃ rp, p.resourcePackPath = some rp ∧ fileAt rp = some bytes) ∨
        (t = "override" ∧ ∃ ov, p.overrideFilePath = some ov ∧ fileAt ov = some bytes)) ∧
    (∀ (t : String) (p : TranslationPack) (fileAt : String → Option (List Nat))
        (slug : String), t ≠ "resourcepack" → t ≠ "override" →
      ∃ c m, downloadGET (some t) (some p) fileAt slug = .err c m) := by
  refine ⟨?_, ?_, ?_, ?_, ?_⟩
  · intro form sess pid mid hrp hov
    unfold uploadPOST
    by_cases hc : (jsFalsy form.curseforgeId || jsFalsy form.modpackVersion) = true
    · exact ⟨"Missing required fields", by rw [if_pos hc]⟩
    · refine ⟨"At least one file is required", ?_⟩
      rw [if_neg hc, if_pos (by rw [hrp, hov]; rfl)]
  · intro form sess pid mid r h
    unfold uploadPOST at h
    split at h
    · exact absurd h (by simp)
    · split at h
      · exact absurd h (by simp)
      · rename_i hc1 hc2
        simp only [Except.ok.injEq] at h
        subst h
        refine ⟨?_, rfl, rfl, ?_⟩
        · cases hrp : form.resourcePack with
          | some b => left; rfl
          | none =>
            cases ho : form.overrideFile with
            | some b => right; rfl
            | none => exact absurd (by rw [hrp, ho]; rfl) hc2
        · intro p q hp hq hpq
          simp only at hp hq
          cases hrp : form.resourcePack with
          | none => rw [hrp] at hp; simp at hp
          | some b =>
            cases hov : form.overrideFile with
            | none => rw [hov] at hq; simp at hq
            | some b' =>
              rw [hrp] at hp
              rw [hov] at hq
              simp only [Option.map_some', Option.some.injEq] at hp hq
              rw [← hp, ← hq] at hpq
              have := congrArg String.length hpq
              simp only [String.length_append] at this
              have h17 : ("_resourcepack.zip" : String).length = 17 := rfl
              have h13 : ("_override.zip" : String).length = 13 := rfl
              have h1l : ("/" : String).length = 1 := rfl
              rw [h17, h13, h1l] at this
              omega
  · intro pack fileAt slug
    rfl
  · intro t p fileAt slug name bytes h
    simp only [downloadGET] at h
    split at h
    · exact absurd h (by simp)
    · split at h
      · rename_i hcond
        cases hf : fileAt (p.resourcePackPath.getD "") with
        | none => rw [hf] at h; exact absurd h (by simp)
        | some bs =>
          rw [hf] at h
          simp only [DownloadResp.file.injEq] at h
          left
          refine ⟨hcond.1, p.resourcePackPath.getD "", ?_, ?_⟩
          · have hs := hcond.2
            cases hq : p.resourcePackPath with
            | none => rw [hq] at hs; simp at hs
            | some rp => rfl
          · rw [hf, h.2]
      · split at h
        · rename_i hcond
          cases hf : fileAt (p.overrideFilePath.getD "") with
          | none => rw [hf] at h; exact absurd h (by simp)
          | some bs =>
            rw [hf] at h
            simp only [DownloadResp.file.injEq] at h
            right
            refine ⟨hcond.1, p.overrideFilePath.getD "", ?_, ?_⟩
            · have hs := hcond.2
              cases hq : p.overrideFilePath with
              | none => rw [hq] at hs; simp at hs
              | some ov => rfl
            · rw [hf, h.2]
        · exact absurd h (by simp)
  · intro t p fileAt slug h1 h2
    by_cases hst : p.status = "approved"
    · refine ⟨404, "File type not available", ?_⟩
      simp only [downloadGET]
      rw [if_neg (by simp [hst]), if_neg (fun hc => h1 hc.1), if_neg (fun hc => h2 hc.1)]
    · exact ⟨403, "Translation is not approved",
        by simp only [downloadGET]; rw [if_pos hst]⟩

/-- Witness for C6 at concrete uploads and downloads. -/
theorem pack_output_two_roots_witness :
    (∃ msg, uploadPOST { sampleForm with resourcePack := none, overrideFile := none }
        none "p1" 7 = .error ⟨400, msg⟩) ∧
      ((sampleForm.resourcePack.isSome = true ∨ sampleForm.overrideFile.isSome = true) ∧
        samplePackPending.resourcePackPath =
          sampleForm.resourcePack.map (fun _ => "p1" ++ "/" ++ "p1" ++ "_resourcepack.zip") ∧
        samplePackPending.overrideFilePath =
          sampleForm.overrideFile.map (fun _ => "p1" ++ "/" ++ "p1" ++ "_override.zip")) ∧
      downloadGET none (some samplePackPending) (fun _ => none) "slug" =
        .err 400 "Missing type parameter" ∧
      (("resourcepack" : String) = "resourcepack" ∧
        ∃ rp, sampleApproved.resourcePackPath = some rp ∧
          (fun q => if q = "p1/p1_resourcepack.zip" then some [9, 9] else none) rp =
            some [9, 9]) ∧
      (∃ c m, downloadGET (some "banana") (some sampleApproved) (fun _ => none) "slug" =
        .err c m) := by
  obtain ⟨h1, h2, h3, h4, h5⟩ := pack_output_two_roots
  refine ⟨h1 { sampleForm with resourcePack := none, overrideFile := none } none "p1" 7
      rfl rfl, ?_, h3 (some samplePackPending) (fun _ => none) "slug", ?_, ?_⟩
  · have := h2 sampleForm none "p1" 7
      ⟨samplePackPending, [("p1/p1_resourcepack.zip", [9, 9])]⟩ rfl
    exact ⟨this.1, this.2.1, this.2.2.1⟩
  · have := h4 "resourcepack" sampleApproved
      (fun q => if q = "p1/p1_resourcepack.zip" then some [9, 9] else none) "slug"
      ("slug" ++ "_" ++ "1.0" ++ "_resourcepack.zip") [9, 9] rfl
    rcases this with h | h
    · exact h
    · exact absurd h.1 (by decide)
  · exact h5 "banana" sampleApproved (fun _ => none) "slug" (by decide) (by decide)

/-! ### C7 — run statistics as upload metadata -/

/-- A rendered number has at least one digit. -/
theorem numToDigits_ne_nil (n : Nat) : numToDigits n ≠ [] := by
  unfold numToDigits numToDigitsGo
  split <;> simp

/-- `takeWhile` keeps a list all of whose elements satisfy the predicate. -/
theorem takeWhile_all {α : Type} (p : α → Bool) :
    ∀ (l : List α), (∀ c ∈ l, p c = true) → l.takeWhile p = l := by
  intro l
  induction l with
  | nil => intro _; rfl
  | cons c rest ih =>
    intro hall
    have hc : p c = true := hall c (by simp)
    simp only [List.takeWhile, hc]
    rw [ih (fun d hd => hall d (by simp [hd]))]

/-- `dropWhile` drops a list all of whose elements satisfy the predicate. -/
theorem dropWhile_all {α : Type} (p : α → Bool) :
    ∀ (l : List α), (∀ c ∈ l, p c = true) → l.dropWhile p = [] := by
  intro l
  induction l with
  | nil => intro _; rfl
  | cons c rest ih =>
    intro hall
    have hc : p c = true := hall c (by simp)
    simp only [List.dropWhile, hc]
    exact ih (fun d hd => hall d (by simp [hd]))

/-- The digit prefix of a rendered number is the whole rendering. -/
theorem takeWhile_numToDigits (n : Nat) :
    (numToDigits n).takeWhile Char.isDigit = numToDigits n :=
  takeWhile_all Char.isDigit (numToDigits n) (fun _ hc => isDigit_of_mem_numToDigits hc)

/-- `parseInt` recovers a rendered natural number. -/
theorem jsParseInt_natToStr (n : Nat) : jsParseInt (natToStr n) = some (n : Int) := by
  have hpre : intDigitsVal (numToDigits n) = some (n : Int) := by
    unfold intDigitsVal
    rw [takeWhile_numToDigits, if_neg (by simp [numToDigits_ne_nil n]),
      digitsToNum_numToDigits]
  cases hnd : numToDigits n with
  | nil => exact absurd hnd (numToDigits_ne_nil n)
  | cons c rest =>
    have hcd : c.isDigit = true :=
      isDigit_of_mem_numToDigits (hnd ▸ List.mem_cons_self c rest)
    have hne : c ≠ '-' := by
      intro hc
      rw [hc] at hcd
      exact absurd hcd (by decide)
    unfold jsParseInt
    rw [show (natToStr n).toList = numToDigits n from rfl, hnd]
    show (if c = '-' then (intDigitsVal rest).map Neg.neg else intDigitsVal (c :: rest)) = some (n : Int)
    rw [if_neg hne, ← hnd, hpre]

/-- `parseFloat` recovers a rendered natural number. -/
theorem jsParseFloat_natToStr (n : Nat) : jsParseFloat (natToStr n) = some (n : ℚ) := by
  have hdrop : (numToDigits n).dropWhile Char.isDigit = [] :=
    dropWhile_all Char.isDigit (numToDigits n) (fun c hc => isDigit_of_mem_numToDigits hc)
  have hpre : floatDigitsVal (numToDigits n) = some (n : ℚ) := by
    unfold floatDigitsVal
    rw [takeWhile_numToDigits, if_neg (by simp [numToDigits_ne_nil n]), hdrop,
      digitsToNum_numToDigits]
  cases hnd : numToDigits n with
  | nil => exact absurd hnd (numToDigits_ne_nil n)
  | cons c rest =>
    have hcd : c.isDigit = true :=
      isDigit_of_mem_numToDigits (hnd ▸ List.mem_cons_self c rest)
    have hne : c ≠ '-' := by
      intro hc
      rw [hc] at hcd
      exact absurd hcd (by decide)
    unfold jsParseFloat
    rw [show (natToStr n).toList = numToDigits n from rfl, hnd]
    show (if c = '-' then (floatDigitsVal rest).map Neg.neg else floatDigitsVal (c :: rest)) =
      some (n : ℚ)
    rw [if_neg hne, ← hnd, hpre]

/-- A rendered number is a truthy form value. -/
theorem natToStr_not_falsy (n : Nat) : jsFalsy (some (natToStr n)) = false := by
  show (natToStr n == "") = false
  rw [beq_eq_false_iff_ne]
  intro h
  exact numToDigits_ne_nil n (congrArg String.toList h)

/-- C7 counterexample: two pipeline runs that differ only in the
failed-unit counter produce identical upload metadata, so the upload form
does not carry a failed-unit count. -/
theorem run_statistics_failed_not_carried :
    toUploadForm ⟨3, 10, 9, 1, 100, 200, 42⟩ sampleForm =
        toUploadForm ⟨3, 10, 9, 0, 100, 200, 42⟩ sampleForm ∧
      (⟨3, 10, 9, 1, 100, 200, 42⟩ : RunStatistics) ≠ ⟨3, 10, 9, 0, 100, 200, 42⟩ :=
  ⟨rfl, by decide⟩

/-- C7 (amended): the upload metadata built from a run's statistics
carries files processed, units total/translated, input/output/total token
counts and elapsed time (no failed-unit counter), and each counter
provided on upload is persisted as its parsed numeric value on the
created translation pack record. -/
theorem run_statistics_persisted (st : RunStatistics) (base : UploadForm)
    (sess : Option SessionUser) (pid : String) (mid : Nat)
    (h1 : jsFalsy base.curseforgeId = false) (h2 : jsFalsy base.modpackVersion = false)
    (h3 : base.resourcePack.isSome = true ∨ base.overrideFile.isSome = true) :
    ∃ r, uploadPOST (toUploadForm st base) sess pid mid = .ok r ∧
      r.pack.fileCount = some (st.filesProcessed : Int) ∧
      r.pack.totalEntries = some (st.unitsTotal : Int) ∧
      r.pack.translatedEntries = some (st.unitsTranslated : Int) ∧
      r.pack.inputTokens = some (st.inputTokens : Int) ∧
      r.pack.outputTokens = some (st.outputTokens : Int) ∧
      r.pack.totalTokens = some ((st.inputTokens + st.outputTokens : Nat) : Int) ∧
      r.pack.durationSeconds = some (st.elapsedSeconds : ℚ) := by
  have hcond1 : (jsFalsy (toUploadForm st base).curseforgeId ||
      jsFalsy (toUploadForm st base).modpackVersion) = false := by
    show (jsFalsy base.curseforgeId || jsFalsy base.modpackVersion) = false
    rw [h1, h2]
    rfl
  have hcond2 : ((toUploadForm st base).resourcePack.isNone &&
      (toUploadForm st base).overrideFile.isNone) = false := by
    show (base.resourcePack.isNone && base.overrideFile.isNone) = false
    rcases h3 with h | h
    · obtain ⟨b, hb⟩ := Option.isSome_iff_exists.1 h
      rw [hb]
      rfl
    · obtain ⟨b, hb⟩ := Option.isSome_iff_exists.1 h
      rw [hb]
      simp
  unfold uploadPOST
  rw [if_neg (by simp [hcond1]), if_neg (by simp [hcond2])]
  refine ⟨_, rfl, ?_, ?_, ?_, ?_, ?_, ?_, ?_⟩ <;>
    simp only [toUploadForm] <;>
    rw [natToStr_not_falsy] <;>
    simp only [Bool.false_eq_true, if_false, Option.getD_some] <;>
    first
      | exact jsParseInt_natToStr _
      | exact jsParseFloat_natToStr _

/-- Witness for C7 at a concrete run and base form. -/
theorem run_statistics_persisted_witness :
    ∃ r, uploadPOST (toUploadForm ⟨3, 10, 9, 1, 100, 200, 42⟩ sampleForm) none "p1" 7 =
        .ok r ∧
      r.pack.fileCount = some ((3 : Nat) : Int) ∧
      r.pack.totalEntries = some ((10 : Nat) : Int) ∧
      r.pack.translatedEntries = some ((9 : Nat) : Int) ∧
      r.pack.inputTokens = some ((100 : Nat) : Int) ∧
      r.pack.outputTokens = some ((200 : Nat) : Int) ∧
      r.pack.totalTokens = some ((100 + 200 : Nat) : Int) ∧
      r.pack.durationSeconds = some ((42 : Nat) : ℚ) :=
  run_statistics_persisted ⟨3, 10, 9, 1, 100, 200, 42⟩ sampleForm none "p1" 7 rfl rfl
    (Or.inl rfl)

/-! ### C8 — approval gating -/

/-- Membership in a descending insertion. -/
theorem mem_insertDesc {α : Type} (key : α → Nat) (x a : α) :
    ∀ l, a ∈ insertDesc key x l ↔ a = x ∨ a ∈ l := by
  intro l
  induction l with
  | nil => simp [insertDesc]
  | cons y ys ih =>
    unfold insertDesc
    by_cases hk : key y < key x
    · rw [if_pos hk]
      simp [List.mem_cons]
    · rw [if_neg hk]
      simp only [List.mem_cons, ih]
      tauto

/-- Membership is preserved by the descending sort. -/
theorem mem_sortDesc {α : Type} (key : α → Nat) (a : α) :
    ∀ l, a ∈ sortDesc key l ↔ a ∈ l := by
  intro l
  induction l with
  | nil => simp [sortDesc]
  | cons y ys ih =>
    show a ∈ insertDesc key y (sortDesc key ys) ↔ _
    rw [mem_insertDesc, ih]
    simp [List.mem_cons]

/-- C8: a pack is never publicly visible before approval — every created
pack starts `pending`; the public listing returns only approved packs;
the download route answers 403 for any pack that is not approved; and the
approve route succeeds only for an admin caller on a pack that is
currently pending, setting its status to approved. -/
theorem approval_gating :
    (∀ (form : UploadForm) (sess : Option SessionUser) (pid : String) (mid : Nat)
        (r : UploadResult),
      uploadPOST form sess pid mid = .ok r → r.pack.status = "pending") ∧
    (∀ (db : List TranslationPack) (q : Option Nat) (p : TranslationPack),
      p ∈ translationsGET db q → p.status = "approved") ∧
    (∀ (t : String) (p : TranslationPack) (fileAt : String → Option (List Nat))
        (slug : String), p.status ≠ "approved" →
      downloadGET (some t) (some p) fileAt slug = .err 403 "Translation is not approved") ∧
    (∀ (sess : Option SessionUser) (pack : Option TranslationPack) (u : TranslationPack),
      approvePOST sess pack = .ok u →
        (∃ s, sess = some s ∧ s.isAdmin = true) ∧
        (∃ p, pack = some p ∧ p.status = "pending" ∧
          u = { p with status := "approved" })) := by
  refine ⟨?_, ?_, ?_, ?_⟩
  · intro form sess pid mid r h
    unfold uploadPOST at h
    split at h
    · exact absurd h (by simp)
    · split at h
      · exact absurd h (by simp)
      · simp only [Except.ok.injEq] at h
        subst h
        rfl
  · intro db q p hp
    unfold translationsGET at hp
    have hmem := List.mem_of_mem_take hp
    rw [mem_sortDesc] at hmem
    have := (List.mem_filter.1 hmem).2
    rw [Bool.and_eq_true] at this
    have := this.1
    simpa using this
  · intro t p fileAt slug hst
    simp only [downloadGET]
    rw [if_pos hst]
  · intro sess pack u h
    unfold approvePOST at h
    split at h
    · exact absurd h (by simp)
    · rename_i hadm
      simp only [Bool.not_eq_true', Bool.not_eq_false] at hadm
      split at h
      · exact absurd h (by simp)
      · rename_i p
        split at h
        · exact absurd h (by simp)
        · rename_i hpend
          simp only [Except.ok.injEq] at h
          rw [Classical.not_not] at hpend
          refine ⟨?_, p, rfl, hpend, h.symm⟩
          cases sess with
          | none => exact absurd hadm (by simp)
          | some s => exact ⟨s, rfl, hadm⟩

/-- Witness for C8 at concrete packs and calls. -/
theorem approval_gating_witness :
    samplePackPending.status = "pending" ∧
      sampleApproved.status = "approved" ∧
      downloadGET (some "resourcepack") (some samplePackPending) (fun _ => none) "slug" =
        .err 403 "Translation is not approved" ∧
      ((∃ s, (some (⟨"admin", true⟩ : SessionUser)) = some s ∧ s.isAdmin = true) ∧
        (∃ p, (some samplePackPending) = some p ∧ p.status = "pending" ∧
          ({ samplePackPending with status := "approved" } : TranslationPack) =
            { p with status := "approved" })) := by
  obtain ⟨h1, h2, h3, h4⟩ := approval_gating
  refine ⟨h1 sampleForm none "p1" 7 ⟨samplePackPending, [("p1/p1_resourcepack.zip", [9, 9])]⟩
      rfl, ?_, ?_, ?_⟩
  · exact h2 [samplePackPending, sampleApproved] none sampleApproved (by decide)
  · exact h3 "resourcepack" samplePackPending (fun _ => none) "slug" (by decide)
  · exact h4 (some ⟨"admin", true⟩) (some samplePackPending)
      { samplePackPending with status := "approved" } rfl

/-! ### C9 — manual uploads null the LLM fields -/

/-- C9: when `isManualTranslation` is true the created pack stores
`llmModel`, `temperature` and `batchSize` as null and `usedGlossary` as
false regardless of the submitted values; when it is false the submitted
values are parsed and stored. -/
theorem manual_upload_nulls_llm_fields :
    (∀ (form : UploadForm) (sess : Option SessionUser) (pid : String) (mid : Nat)
        (r : UploadResult), uploadPOST form sess pid mid = .ok r →
      form.isManualTranslation = true →
        r.pack.llmModel = none ∧ r.pack.temperature = none ∧ r.pack.batchSize = none ∧
          r.pack.usedGlossary = false) ∧
    (∀ (form : UploadForm) (sess : Option SessionUser) (pid : String) (mid : Nat)
        (r : UploadResult), uploadPOST form sess pid mid = .ok r →
      form.isManualTranslation = false →
        r.pack.llmModel = form.llmModel ∧
        r.pack.temperature =
          (if jsFalsy form.temperature then none
            else jsParseFloat ((form.temperature).getD "")) ∧
        r.pack.batchSize =
          (if jsFalsy form.batchSize then none
            else jsParseInt ((form.batchSize).getD "")) ∧
        r.pack.usedGlossary = form.usedGlossary) := by
  constructor
  · intro form sess pid mid r h hman
    unfold uploadPOST at h
    split at h
    · exact absurd h (by simp)
    · split at h
      · exact absurd h (by simp)
      · simp only [Except.ok.injEq] at h
        subst h
        simp [hman]
  · intro form sess pid mid r h hman
    unfold uploadPOST at h
    split at h
    · exact absurd h (by simp)
    · split at h
      · exact absurd h (by simp)
      · simp only [Except.ok.injEq] at h
        subst h
        simp [hman]

/-- Witness for C9: the concrete manual upload of `sampleForm` (which
submits an LLM model, temperature, batch size and glossary flag) stores
nulls and `false`. -/
theorem manual_upload_nulls_llm_fields_witness :
    sampleForm.isManualTranslation = true ∧
      samplePackPending.llmModel = none ∧ samplePackPending.temperature = none ∧
      samplePackPending.batchSize = none ∧ samplePackPending.usedGlossary = false :=
  ⟨rfl, (manual_upload_nulls_llm_fields.1 sampleForm none "p1" 7
    ⟨samplePackPending, [("p1/p1_resourcepack.zip", [9, 9])]⟩ rfl rfl)⟩

/-! ### C10 — reviewer IPs never exposed -/

/-- Descending insertion commutes with a key-preserving map. -/
theorem insertDesc_map {α : Type} (key : α → Nat) (g : α → α)
    (hg : ∀ a, key (g a) = key a) (x : α) :
    ∀ l, insertDesc key (g x) (l.map g) = (insertDesc key x l).map g := by
  intro l
  induction l with
  | nil => simp [insertDesc]
  | cons y ys ih =>
    show insertDesc key (g x) (g y :: ys.map g) = _
    unfold insertDesc
    rw [hg y, hg x]
    by_cases hk : key y < key x
    · rw [if_pos hk, if_pos hk]
      rfl
    · rw [if_neg hk, if_neg hk]
      rw [List.map_cons, ih]

/-- Descending sort commutes with a key-preserving map. -/
theorem sortDesc_map {α : Type} (key : α → Nat) (g : α → α)
    (hg : ∀ a, key (g a) = key a) :
    ∀ l, sortDesc key (l.map g) = (sortDesc key l).map g := by
  intro l
  induction l with
  | nil => rfl
  | cons y ys ih =>
    show insertDesc key (g y) ((ys.map g).foldr (insertDesc key) []) = _
    rw [show (ys.map g).foldr (insertDesc key) [] = sortDesc key (ys.map g) from rfl, ih]
    exact insertDesc_map key g hg y (sortDesc key ys)

/-- C10: an anonymous review stores the client IP for rate limiting, yet
every review returned by the listing endpoint has its `ipAddress` removed,
and the listing response is independent of the stored IP values. -/
theorem reviews_never_expose_ip :
    (∀ (rid : Nat) (packId : String) (works : Bool) (rating : Nat)
        (comment : Option String) (ip : String) (now : Nat),
      (anonReviewCreate rid packId works rating comment ip now).ipAddress = some ip) ∧
    (∀ (db : List Review) (packId : String) (r : Review),
      r ∈ reviewsGET db packId → r.ipAddress = none) ∧
    (∀ (db : List Review) (packId : String) (f : Review → Option String),
      reviewsGET (db.map (fun r => { r with ipAddress := f r })) packId =
        reviewsGET db packId) := by
  refine ⟨fun _ _ _ _ _ _ _ => rfl, ?_, ?_⟩
  · intro db packId r hr
    unfold reviewsGET at hr
    obtain ⟨r', _, hr'⟩ := List.mem_map.1 hr
    rw [← hr']
    rfl
  · intro db packId f
    unfold reviewsGET
    rw [List.filter_map]
    have hp : ((fun r => r.packId == packId) ∘ fun r => { r with ipAddress := f r }) =
        fun r : Review => r.packId == packId := rfl
    rw [hp, sortDesc_map (fun r : Review => r.createdAt)
      (fun r : Review => { r with ipAddress := f r }) (fun a => rfl), List.map_map]
    have hs : (sanitizeReview ∘ fun r => { r with ipAddress := f r }) = sanitizeReview :=
      funext fun r => rfl
    rw [hs]

/-- Witness for C10 at a concrete review table. -/
theorem reviews_never_expose_ip_witness :
    (anonReviewCreate 1 "p2" true 5 none "9.9.9.9" 3).ipAddress = some "9.9.9.9" ∧
      (sanitizeReview (anonReviewCreate 1 "p2" true 5 none "9.9.9.9" 3)).ipAddress = none ∧
      reviewsGET
          ([anonReviewCreate 1 "p2" true 5 none "9.9.9.9" 3].map
            (fun r => { r with ipAddress := some "8.8.8.8" })) "p2" =
        reviewsGET [anonReviewCreate 1 "p2" true 5 none "9.9.9.9" 3] "p2" := by
  obtain ⟨h1, h2, h3⟩ := reviews_never_expose_ip
  refine ⟨h1 1 "p2" true 5 none "9.9.9.9" 3, ?_,
    h3 [anonReviewCreate 1 "p2" true 5 none "9.9.9.9" 3] "p2" (fun _ => some "8.8.8.8")⟩
  exact h2 [anonReviewCreate 1 "p2" true 5 none "9.9.9.9" 3] "p2"
    (sanitizeReview (anonReviewCreate 1 "p2" true 5 none "9.9.9.9" 3)) (by decide)

/-- Witness for C5 at a concrete vanilla/pack collision with different
aliases. -/
theorem glossary_pack_overrides_vanilla_witness :
    glossaryFind
        (mergeGlossary
          [("다이아몬드 검", ⟨["Diamond Sword"], some "item", none⟩)]
          [("다이아몬드 검", ⟨["Diamond Sword", "Dia Sword"], some "weapon", some "pack"⟩)])
        "다이아몬드 검" =
      some ⟨["Diamond Sword", "Dia Sword"], some "weapon", some "pack"⟩ :=
  (glossary_pack_overrides_vanilla
    [("다이아몬드 검", ⟨["Diamond Sword"], some "item", none⟩)]
    [("다이아몬드 검", ⟨["Diamond Sword", "Dia Sword"], some "weapon", some "pack"⟩)]
    "다이아몬드 검" _ _ rfl rfl).1

end MCTrans
